import Mathlib

/-!
# Verification of the Netflix content-analysis engine

Shallow embedding of `src/netflix_analysis.py` (class `NetflixAnalyzer`):
the field-derivation pipeline (`preprocess_data`), the counting reports
(`value_counts`-based analyses, `groupby(...).size()` cross-tabulations),
the description keyword analysis (`keyword_analysis`), the genre pair
co-occurrence counting in `visualize_genres`, and the query layer
(`search_content`, `content_recommender`).

Records are modelled as value structures carrying the stored column values
of one dataframe row; pandas `NaN` cells are modelled as `Option.none`.
-/

namespace Netflix

/-! ## Python string primitives used by the source -/

/-- Byte-for-byte prefix test on character lists (case-sensitive). -/
def isPrefixOfB : List Char → List Char → Bool
  | [], _ => true
  | _ :: _, [] => false
  | a :: as, b :: bs => a == b && isPrefixOfB as bs

/-- Case-sensitive substring search on character lists: Python's `pat in hay`
(`containsSubL pat hay` checks whether `pat` occurs contiguously in `hay`). -/
def containsSubL (pat : List Char) : List Char → Bool
  | [] => isPrefixOfB pat []
  | c :: cs => isPrefixOfB pat (c :: cs) || containsSubL pat cs

/-- Python's `pat in s` substring test on strings. -/
def pyIn (pat s : String) : Bool := containsSubL pat.data s.data

/-- Python `str.split(' ')[0]`: the leading run of characters before the first
space (empty when the string starts with a space). -/
def leadTok (s : String) : String := String.mk (s.data.takeWhile (fun c => c ≠ ' '))

/-- Digit run of a Python integer literal: a digit, then digits with single
interior underscores (`int("1_0") = 10`); anything else fails. -/
def pyDigits : Nat → List Char → Option Nat
  | acc, [] => some acc
  | acc, '_' :: c :: cs =>
      if c.isDigit then pyDigits (acc * 10 + (c.toNat - '0'.toNat)) cs else none
  | _, ['_'] => none
  | acc, c :: cs =>
      if c.isDigit then pyDigits (acc * 10 + (c.toNat - '0'.toNat)) cs else none

/-- First character must be a digit; then `pyDigits`. -/
def pyDigits1 : List Char → Option Nat
  | c :: cs => if c.isDigit then pyDigits (c.toNat - '0'.toNat) cs else none
  | [] => none

/-- Python's `int(s)` on a string: optional surrounding whitespace, optional
sign, then a nonempty digit run (with single interior underscores); any other
shape raises `ValueError`, modelled as `none`.  (Unicode digits and exotic
whitespace are outside the model.) -/
def pyInt? (s : String) : Option Int :=
  let core := (s.data.dropWhile Char.isWhitespace).reverse.dropWhile Char.isWhitespace |>.reverse
  match core with
  | '-' :: rest => (pyDigits1 rest).map (fun n => -(n : Int))
  | '+' :: rest => (pyDigits1 rest).map (fun n => (n : Int))
  | rest => (pyDigits1 rest).map (fun n => (n : Int))

/-- Lowercase a string character-wise: Python `str.lower()` on ASCII text. -/
def lowerStr (s : String) : String := String.mk (s.data.map Char.toLower)

/-- Uppercase a string character-wise: Python `str.upper()` on ASCII text. -/
def upperStr (s : String) : String := String.mk (s.data.map Char.toUpper)

/-! ## Duration derivation (`preprocess_data`, lines 47-55)

`df['duration'].apply(lambda x: int(x.split(' ')[0]) if 'min' in str(x) else np.nan)`
and the analogous lambda testing `'Season' in str(x)`.  A missing duration is
`NaN`, whose `str()` is `"nan"`, which contains neither `"min"` nor
`"Season"`, so the lambda yields `NaN` for it; when the test succeeds but the
leading token is not an integer literal, `int` raises `ValueError`, modelled
as `Except.error ()`. -/

/-- The movie-minutes lambda applied to one `duration` cell. -/
def duration_min_of : Option String → Except Unit (Option Int)
  | none => .ok none
  | some s =>
      if pyIn "min" s then
        match pyInt? (leadTok s) with
        | some n => .ok (some n)
        | none => .error ()
      else .ok none

/-- The TV-seasons lambda applied to one `duration` cell. -/
def seasons_of : Option String → Except Unit (Option Int)
  | none => .ok none
  | some s =>
      if pyIn "Season" s then
        match pyInt? (leadTok s) with
        | some n => .ok (some n)
        | none => .error ()
      else .ok none

/-! ## Date derivation (`preprocess_data`, lines 38-45)

`pd.to_datetime(df['date_added'], format='%B %d, %Y', errors='coerce')`:
a cell parses only when it is a full month name, a space, a 1-2 digit day,
`", "`, and a 4-digit year, and the day is valid for that month/year;
anything else (including a missing cell) coerces to `NaT`, modelled as
`none`.  (`strptime` matches month names case-insensitively.  The
`pandas.Timestamp` year range limits are outside the model.)  The derived
columns are `dt.year`, `dt.month_name()` and `dt.day_name()`, all `NaN`
whenever the date is `NaT`. -/

/-- A parsed calendar date. -/
structure PDate where
  year : Nat
  month : Nat
  day : Nat
deriving DecidableEq

/-- English month names with their numbers, as matched by `%B`. -/
def monthNames : List (String × Nat) :=
  [("January", 1), ("February", 2), ("March", 3), ("April", 4), ("May", 5),
   ("June", 6), ("July", 7), ("August", 8), ("September", 9), ("October", 10),
   ("November", 11), ("December", 12)]

/-- `month_name()` for a month number. -/
def monthName (m : Nat) : String :=
  (((monthNames.filter (fun p => p.2 == m)).head?).map Prod.fst).getD ""

/-- Gregorian leap-year rule. -/
def isLeap (y : Nat) : Bool := y % 4 == 0 && (y % 100 != 0 || y % 400 == 0)

/-- Days in a month of a given year. -/
def daysInMonth (y m : Nat) : Nat :=
  if m == 2 then (if isLeap y then 29 else 28)
  else if m == 4 || m == 6 || m == 9 || m == 11 then 30
  else 31

/-- Parse a run of 1 to `maxLen` decimal digits at the front of `cs`. -/
def parseDigitRun (maxLen : Nat) (cs : List Char) : Option (Nat × List Char) :=
  let run := cs.takeWhile Char.isDigit
  if run.length == 0 || maxLen < run.length then none
  else some (run.foldl (fun a c => a * 10 + (c.toNat - '0'.toNat)) 0, cs.drop run.length)

/-- Parse `" %d, %Y"` after the month name: a space, 1-2 digit day, `", "`,
then exactly a 4-digit year ending the string. -/
def parseDayYear : List Char → Option (Nat × Nat)
  | ' ' :: rest =>
      match parseDigitRun 2 rest with
      | some (d, ',' :: ' ' :: rest') =>
          match parseDigitRun 4 rest' with
          | some (y, []) => if rest'.length == 4 then some (d, y) else none
          | _ => none
      | _ => none
  | _ => none

/-- Parse one `date_added` cell against the format `"%B %d, %Y"`, validating
the day against the month length; failures coerce to `none` (`NaT`). -/
def parseDateMDY (s : String) : Option PDate :=
  monthNames.findSome? fun (nm, m) =>
    if isPrefixOfB (lowerStr nm).data (lowerStr s).data then
      match parseDayYear (s.data.drop nm.data.length) with
      | some (d, y) =>
          if 1 ≤ d && d ≤ daysInMonth y m then some ⟨y, m, d⟩ else none
      | none => none
    else none

/-- `to_datetime(..., errors='coerce')` on one optional cell. -/
def parseDateOpt : Option String → Option PDate
  | none => none
  | some s => parseDateMDY s

/-- Day-of-week index via Zeller's congruence (0 = Saturday). -/
def zellerIdx (d : PDate) : Nat :=
  let m := if d.month ≤ 2 then d.month + 12 else d.month
  let yy := if d.month ≤ 2 then d.year - 1 else d.year
  let k := yy % 100
  let j := yy / 100
  (d.day + (13 * (m + 1)) / 5 + k + k / 4 + j / 4 + 5 * j) % 7

/-- `dt.day_name()` for a parsed date. -/
def weekdayName (d : PDate) : String :=
  [("Saturday"), ("Sunday"), ("Monday"), ("Tuesday"), ("Wednesday"),
   ("Thursday"), ("Friday")].getD (zellerIdx d) ""

/-! ## Records and the derivation pipeline -/

/-- One raw CSV row as handed to `preprocess_data`; a pandas `NaN` cell is
`none`.  The column `type` is held in `rowType`. -/
structure RawRecord where
  title : Option String
  cast : Option String
  director : Option String
  description : Option String
  listed_in : Option String
  rating : Option String
  country : Option String
  date_added : Option String
  duration : Option String
  rowType : Option String
  release_year : Int
deriving DecidableEq

/-- One dataframe row after `preprocess_data`: the original columns plus the
derived ones (`date_added` is overwritten by its parsed value). -/
structure Record where
  title : Option String
  cast : Option String
  director : Option String
  description : Option String
  listed_in : Option String
  rating : Option String
  country : Option String
  release_year : Int
  date_added : Option PDate
  year_added : Option Int
  month_added : Option String
  day_added : Option String
  duration_min : Option Int
  seasons : Option Int
  content_type : String
deriving DecidableEq

/-- `preprocess_data` restricted to one row: derives the date columns (with
`errors='coerce'`), the two duration columns (whose `int(...)` may raise,
propagated as `Except.error`), and
`content_type = 'Movie' if x == 'Movie' else 'TV Show'`. -/
def preprocess_record (raw : RawRecord) : Except Unit Record := do
  let dm ← duration_min_of raw.duration
  let ss ← seasons_of raw.duration
  let dt := parseDateOpt raw.date_added
  pure { title := raw.title, cast := raw.cast, director := raw.director,
         description := raw.description, listed_in := raw.listed_in,
         rating := raw.rating, country := raw.country,
         release_year := raw.release_year,
         date_added := dt,
         year_added := dt.map (fun d => (d.year : Int)),
         month_added := dt.map (fun d => monthName d.month),
         day_added := dt.map (fun d => weekdayName d),
         duration_min := dm, seasons := ss,
         content_type := if raw.rowType = some "Movie" then "Movie" else "TV Show" }

/-- `preprocess_data` over the whole record set (any row raising aborts the
run). -/
def preprocess_data (raws : List RawRecord) : Except Unit (List Record) :=
  raws.mapM preprocess_record

/-! ## `str.contains` matching (`search_content` lines 566-570,
`content_recommender` line 537)

`df[col].str.contains(query, case=False, na=False)` interprets `query` as a
regular expression (`regex=True` is the pandas default) compiled with
`re.IGNORECASE`, and a cell matches when `re.search` finds the pattern
anywhere in it; `NaN` cells are `False`.  The model covers the regex
fragment of literal characters plus the `.` wildcard; a query containing any
other `re` metacharacter is outside the model (`compileRegex` returns
`none`) — such patterns either carry further regex behaviour or raise
`re.error` (e.g. `"("`). -/

/-- One compiled pattern token: a literal character or the `.` wildcard. -/
inductive RTok where
  | lit (c : Char)
  | dot
deriving DecidableEq

/-- `re` metacharacters. -/
def isRegexMeta (c : Char) : Bool :=
  c == '.' || c == '^' || c == '$' || c == '*' || c == '+' || c == '?' ||
  c == '{' || c == '}' || c == '[' || c == ']' || c == '\\' || c == '|' ||
  c == '(' || c == ')'

/-- Compile a pattern in the literal-plus-dot fragment; `none` for patterns
outside the fragment. -/
def compileRegex (p : String) : Option (List RTok) :=
  if p.data.all (fun c => !isRegexMeta c || c == '.') then
    some (p.data.map (fun c => if c == '.' then RTok.dot else RTok.lit c))
  else none

/-- Whether a token matches one character under `re.IGNORECASE` (the `.`
wildcard does not match a newline). -/
def tokMatches : RTok → Char → Bool
  | .lit a, c => a.toLower == c.toLower
  | .dot, c => c != '\n'

/-- Whether the whole token list matches a prefix of `cs`. -/
def matchHere : List RTok → List Char → Bool
  | [], _ => true
  | _ :: _, [] => false
  | t :: ts, c :: cs => tokMatches t c && matchHere ts cs

/-- `re.search`: the token list matches somewhere in `cs`. -/
def reSearch (ts : List RTok) : List Char → Bool
  | [] => matchHere ts []
  | c :: cs => matchHere ts (c :: cs) || reSearch ts cs

/-- `cell.str.contains(pat, case=False, na=False)` on one optional cell, for
an already compiled pattern. -/
def cellMatches (ts : List RTok) : Option String → Bool
  | none => false
  | some s => reSearch ts s.data

/-- `Series.str.contains(pat, case=False, na=False)` on one cell: `none` when
the pattern is outside the modelled fragment. -/
def pyStrContains (pat : String) (cell : Option String) : Option Bool :=
  (compileRegex pat).map (fun ts => cellMatches ts cell)

/-! ## Counting primitives

`Series.value_counts()` (used by `content_type_analysis`, `country_analysis`,
`release_year_analysis`, `rating_analysis`) drops `NaN` cells (the pandas
default `dropna=True`), counts the remaining values, and sorts the counts
descending.  `collections.Counter` (used by `keyword_analysis` and
`visualize_genres`) counts by insertion, keeping keys in first-occurrence
order, and `most_common()` sorts its items by count descending with a stable
sort, so ties stay in first-occurrence order.  Both are built from the same
increment-by-key fold. -/

/-- Increment the count of `k` in an association list, appending a fresh
`(k, 1)` entry when `k` is new (dict/`Counter` insertion behaviour). -/
def bump [DecidableEq κ] (k : κ) : List (κ × Nat) → List (κ × Nat)
  | [] => [(k, 1)]
  | (k', c) :: rest => if k = k' then (k', c + 1) :: rest else (k', c) :: bump k rest

/-- Count the elements of `l`, keys in first-occurrence order. -/
def countsInOrder [DecidableEq κ] (l : List κ) : List (κ × Nat) :=
  l.foldl (fun acc k => bump k acc) []

/-- Keep the first occurrence of each element not already in `seen`. -/
def dedupFirstAux [DecidableEq κ] (seen : List κ) : List κ → List κ
  | [] => []
  | x :: xs => if x ∈ seen then dedupFirstAux seen xs else x :: dedupFirstAux (x :: seen) xs

/-- Index of the first occurrence of `a` in `l` (`l.length` when absent). -/
def firstIdx [DecidableEq κ] : List κ → κ → Nat
  | [], _ => 0
  | x :: xs, a => if x = a then 0 else firstIdx xs a + 1

/-- Insert `x` before the first element `y` with `le x y`; used by the
stable insertion sort. -/
def insertBy (le : α → α → Bool) (x : α) : List α → List α
  | [] => [x]
  | y :: ys => if le x y then x :: y :: ys else y :: insertBy le x ys

/-- Stable insertion sort: an element stays before later elements it ties
with (`le` is the "may go before" test). -/
def insSortBy (le : α → α → Bool) : List α → List α
  | [] => []
  | x :: xs => insertBy le x (insSortBy le xs)

/-- Descending-by-count order used by `value_counts()` and `most_common()`;
stability keeps equal counts in the key order of the input. -/
def sortByCountDesc [DecidableEq κ] (l : List (κ × Nat)) : List (κ × Nat) :=
  insSortBy (fun a b => b.2 ≤ a.2) l

/-- `Series.value_counts()` over a column of optional cells: drop `NaN`,
count, sort by count descending. -/
def value_counts [DecidableEq κ] (cells : List (Option κ)) : List (κ × Nat) :=
  sortByCountDesc (countsInOrder (cells.filterMap id))

/-- Look up the count of `k` in a counts list (0 when absent). -/
def getCount [DecidableEq κ] (m : List (κ × Nat)) (k : κ) : Nat :=
  match m.find? (fun p => p.1 = k) with
  | some p => p.2
  | none => 0

/-- `content_type_analysis`: `df['content_type'].value_counts()` (the derived
column is never `NaN`). -/
def content_type_analysis (rs : List Record) : List (String × Nat) :=
  value_counts (rs.map (fun r => some r.content_type))

/-- `country_analysis`: `df['country'].value_counts()`. -/
def country_analysis (rs : List Record) : List (String × Nat) :=
  value_counts (rs.map (fun r => r.country))

/-- `rating_analysis`: `df['rating'].value_counts()`. -/
def rating_analysis (rs : List Record) : List (String × Nat) :=
  value_counts (rs.map (fun r => r.rating))

/-- `release_year_analysis` before its `sort_index()` re-ordering:
`df['release_year'].value_counts()`. -/
def release_year_counts (rs : List Record) : List (Int × Nat) :=
  value_counts (rs.map (fun r => some r.release_year))

/-! ## Cross-tabulation (`advanced_content_analysis`, lines 124-148)

`df.groupby([a, b]).size().unstack(fill_value=0)`: `groupby` drops rows in
which either grouping key is `NaN` (the pandas default `dropna=True`); the
unstacked table's cell `(x, y)` is the number of surviving rows with
`a = x` and `b = y`, 0 when the combination is absent. -/

/-- One cell of the unstacked two-key size table. -/
def crossCount [DecidableEq α] [DecidableEq β] (rs : List Record)
    (kA : Record → Option α) (kB : Record → Option β) (a : α) (b : β) : Nat :=
  (rs.filter (fun r => decide (kA r = some a) && decide (kB r = some b))).length

/-- The distinct inner-key values observed in the record set (the columns of
the unstacked table), in first-occurrence order. -/
def innerVals [DecidableEq β] (rs : List Record) (kB : Record → Option β) : List β :=
  dedupFirstAux [] (rs.filterMap kB)

/-- Sum of one row of the unstacked table over all observed inner keys. -/
def crossRowSum [DecidableEq α] [DecidableEq β] (rs : List Record)
    (kA : Record → Option α) (kB : Record → Option β) (a : α) : Nat :=
  ((innerVals rs kB).map (fun b => crossCount rs kA kB a b)).sum

/-- `rating_by_year = df.groupby(['release_year', 'rating']).size().unstack(fill_value=0)`,
one cell. -/
def rating_by_year_count (rs : List Record) (y : Int) (rat : String) : Nat :=
  crossCount rs (fun r => some r.release_year) (fun r => r.rating) y rat

/-! ## Keyword analysis (`keyword_analysis`, lines 206-228)

`' '.join(df['description'].fillna('').str.lower())`, `split()` on
whitespace, drop stop words and words with `len(word) > 3` failing, count
with `collections.Counter`, rank with `most_common()`. -/

/-- Python `str.split()` with no separator: split on whitespace runs,
dropping empty pieces.  `cur` holds the current word reversed. -/
def pySplitWsAux : List Char → List Char → List String
  | cur, [] => if cur.isEmpty then [] else [String.mk cur.reverse]
  | cur, c :: cs =>
      if c.isWhitespace then
        if cur.isEmpty then pySplitWsAux [] cs
        else String.mk cur.reverse :: pySplitWsAux [] cs
      else pySplitWsAux (c :: cur) cs

/-- Python `s.split()`. -/
def pySplitWs (s : String) : List String := pySplitWsAux [] s.data

/-- The fixed stop-word set of `keyword_analysis`. -/
def stop_words : List String :=
  ["the", "a", "an", "and", "or", "but", "in", "on", "at", "to", "for", "of",
   "with", "by", "is", "are", "was", "were", "be", "been", "have", "has",
   "had", "do", "does", "did", "will", "would", "could", "should", "may",
   "might", "must", "can", "this", "that", "these", "those", "i", "you",
   "he", "she", "it", "we", "they", "them", "their", "what", "which", "who",
   "when", "where", "why", "how", "all", "any", "both", "each", "few",
   "more", "most", "other", "some", "such", "no", "nor", "not", "only",
   "own", "same", "so", "than", "too", "very", "just", "now"]

/-- The concatenated, lowercased description text of `keyword_analysis`. -/
def allDescriptions (rs : List Record) : String :=
  String.intercalate " " (rs.map (fun r => lowerStr ((r.description).getD "")))

/-- The whitespace token stream of the concatenated descriptions. -/
def descWords (rs : List Record) : List String :=
  pySplitWs (allDescriptions rs)

/-- The filter of `keyword_analysis`, with the stop-word set and the length
threshold as parameters; the source fixes `stop = stop_words` and keeps
`len(word) > 3`, i.e. `minLen = 4`. -/
def keptWords (rs : List Record) (stop : List String) (minLen : Nat) : List String :=
  (descWords rs).filter (fun w => decide (w ∉ stop) && decide (minLen ≤ w.length))

/-- `keyword_analysis`: count the kept words and rank them as
`Counter.most_common()` does — count descending, ties in first-occurrence
(insertion) order. -/
def keyword_analysis (rs : List Record) (stop : List String) (minLen : Nat) :
    List (String × Nat) :=
  sortByCountDesc (countsInOrder (keptWords rs stop minLen))

/-- `keyword_analysis` with the source's fixed stop words and threshold. -/
def keyword_analysis_src (rs : List Record) : List (String × Nat) :=
  keyword_analysis rs stop_words 4

/-! ## Genre pair co-occurrence (`visualize_genres`, lines 412-422)

For each row, `listed_in.str.split(', ')`; for a list of length > 1 append
`(genres[i].strip(), genres[j].strip())` for every `i < j`; count the tuples
with `collections.Counter`.  The tuples are ordered pairs of the positional
values, so repeated values produce self-pairs and duplicate tuples. -/

/-- Python `s.split(sep)` with a nonempty separator: split at each occurrence
of `sep`, keeping empty pieces.  `cur` holds the current piece reversed; the
structural `fuel` only bounds the recursion and never runs out when started
at the length of the scanned text (each step consumes at least one
character). -/
def pySplitAux (sep : List Char) : Nat → List Char → List Char → List String
  | _, cur, [] => [String.mk cur.reverse]
  | 0, cur, cs => [String.mk (cur.reverse ++ cs)]
  | fuel + 1, cur, c :: cs =>
      if isPrefixOfB sep (c :: cs) then
        String.mk cur.reverse :: pySplitAux sep fuel [] ((c :: cs).drop sep.length)
      else pySplitAux sep fuel (c :: cur) cs

/-- Python `s.split(sep)` (the source only uses `sep = ", "`). -/
def pySplit (s sep : String) : List String :=
  match sep.data with
  | [] => [s]
  | c :: cs => pySplitAux (c :: cs) s.data.length [] s.data

/-- Python `str.strip()`: drop whitespace from both ends. -/
def pyStrip (s : String) : String :=
  String.mk ((s.data.dropWhile Char.isWhitespace).reverse.dropWhile Char.isWhitespace).reverse

/-- The ordered index pairs `(genres[i].strip(), genres[j].strip())`, `i < j`,
in the source's nested-loop order. -/
def allPairs : List String → List (String × String)
  | [] => []
  | x :: xs => xs.map (fun y => (pyStrip x, pyStrip y)) ++ allPairs xs

/-- The pair tuples contributed by one `listed_in` cell (`len(genres) > 1`
guard as in the source; lists of length ≤ 1 contribute nothing either way). -/
def pairsOfSplit (s : String) : List (String × String) :=
  let genres := pySplit s ", "
  if genres.length > 1 then allPairs genres else []

/-- All genre pair tuples of the record set (`NaN` rows fail the
`isinstance(genres, list)` test and are skipped). -/
def genre_pairs (rs : List Record) : List (String × String) :=
  rs.flatMap (fun r => match r.listed_in with
    | none => []
    | some s => pairsOfSplit s)

/-- `pair_counts = Counter(genre_pairs)`. -/
def pair_counts (rs : List Record) : List ((String × String) × Nat) :=
  countsInOrder (genre_pairs rs)

/-! ## Search (`search_content`, lines 555-587)

An empty (stripped) query returns without searching.  Otherwise four match
lists are built by `str.contains(query, case=False, na=False)` on `title`,
`cast`, `director` and `description`, concatenated with `pd.concat` in that
order, and deduplicated with `drop_duplicates()`, which compares the full
tuple of column values and keeps the first occurrence. -/

/-- `drop_duplicates()`: keep the first occurrence of each value tuple. -/
def drop_duplicates [DecidableEq α] (l : List α) : List α := dedupFirstAux [] l

/-- `search_content` for a stripped query: `none` when the query pattern is
outside the modelled regex fragment. -/
def search_content (rs : List Record) (q : String) : Option (List Record) :=
  if q = "" then some []
  else
    (compileRegex q).map fun ts =>
      let title_matches := rs.filter (fun r => cellMatches ts r.title)
      let cast_matches := rs.filter (fun r => cellMatches ts r.cast)
      let director_matches := rs.filter (fun r => cellMatches ts r.director)
      let description_matches := rs.filter (fun r => cellMatches ts r.description)
      drop_duplicates (title_matches ++ cast_matches ++ director_matches ++ description_matches)

/-- The spec's wording of "deduplicate keeping first occurrence": fold left,
appending an element only when it has not been kept already. -/
def specDedup [DecidableEq α] (l : List α) : List α :=
  l.foldl (fun acc x => if x ∈ acc then acc else acc ++ [x]) []

/-! ## Recommender (`content_recommender`, lines 498-553)

Conjunctive filtering: `content_type` equality when a kind was chosen;
`listed_in.str.contains(genre, case=False, na=False)` when a genre was
given; `rating == rating.upper()` when a rating was given.  A non-empty
result is sampled with `DataFrame.sample(min(5, len))` — `min(5, n)` distinct
row positions, here supplied as the index list `sel` standing for the random
draw; an empty result prints the no-match message. -/

/-- Outcome of one recommender call. -/
inductive RecOutcome where
  | noMatch
  | recs (picked : List Record)
deriving DecidableEq

/-- The content-kind filter (`None` means both kinds were chosen). -/
def ctFilter (ct : Option String) (rs : List Record) : List Record :=
  match ct with
  | none => rs
  | some t => rs.filter (fun r => decide (r.content_type = t))

/-- The genre filter; `none` when the genre pattern is outside the modelled
regex fragment. -/
def genreFilter (genre : Option String) (rs : List Record) : Option (List Record) :=
  match genre with
  | none => some rs
  | some g => (compileRegex g).map (fun ts => rs.filter (fun r => cellMatches ts r.listed_in))

/-- The rating filter: exact equality against the uppercased input. -/
def ratingFilter (rating : Option String) (rs : List Record) : List Record :=
  match rating with
  | none => rs
  | some rt => rs.filter (fun r => decide (r.rating = some (upperStr rt)))

/-- The conjunctively filtered candidate set. -/
def recCandidates (rs : List Record) (ct genre rating : Option String) :
    Option (List Record) :=
  (genreFilter genre (ctFilter ct rs)).map (ratingFilter rating)

/-- `content_recommender` with the random draw `sel` (row positions chosen by
`sample`) made explicit. -/
def content_recommender (rs : List Record) (ct genre rating : Option String)
    (sel : List Nat) : Option RecOutcome :=
  (recCandidates rs ct genre rating).map fun c =>
    if c.length = 0 then .noMatch
    else .recs (sel.filterMap (fun i => c.get? i))

/-! ## Concrete rows used by witnesses and counterexamples -/

/-- A concrete processed row (a PG movie). -/
def recBase : Record :=
  { title := some "Agent Smith", cast := some "John Doe, Jane Roe",
    director := some "Ann Lee", description := some "A spy thriller full of chases.",
    listed_in := some "Action, Thrillers", rating := some "PG",
    country := some "United States", release_year := 2019,
    date_added := some ⟨2021, 9, 25⟩, year_added := some 2021,
    month_added := some "September", day_added := some "Saturday",
    duration_min := some 90, seasons := none, content_type := "Movie" }

/-- A concrete raw row whose `date_added` does not parse (February 30) but
whose duration is well-formed. -/
def rawBadDate : RawRecord :=
  { title := some "Agent Smith", cast := some "John Doe, Jane Roe",
    director := some "Ann Lee", description := some "A spy thriller full of chases.",
    listed_in := some "Action, Thrillers", rating := some "PG",
    country := some "United States", date_added := some "February 30, 2021",
    duration := some "90 min", rowType := some "Movie", release_year := 2019 }

/-- A concrete raw row whose duration contains `"min"` but whose leading
token is not an integer. -/
def rawBadDuration : RawRecord :=
  { rawBadDate with
      date_added := some "September 25, 2021"
      duration := some "abc min" }

/-- The compiled token list of a pattern inside the literal-plus-dot
fragment. -/
def tsOf (q : String) : List RTok :=
  q.data.map (fun c => if c == '.' then RTok.dot else RTok.lit c)


/-! ## Lemmas: first-occurrence deduplication -/

variable {κ : Type _} [DecidableEq κ]

theorem mem_dedupFirstAux {seen l : List κ} {x : κ} :
    x ∈ dedupFirstAux seen l ↔ x ∈ l ∧ x ∉ seen := by
  induction l generalizing seen with
  | nil => simp [dedupFirstAux]
  | cons y ys ih =>
    by_cases hy : y ∈ seen
    · simp only [dedupFirstAux, if_pos hy, ih, List.mem_cons]
      constructor
      · rintro ⟨h1, h2⟩; exact ⟨Or.inr h1, h2⟩
      · rintro ⟨h1 | h1, h2⟩
        · exact absurd (h1 ▸ hy) h2
        · exact ⟨h1, h2⟩
    · simp only [dedupFirstAux, if_neg hy, List.mem_cons, ih, List.mem_cons]
      constructor
      · rintro (rfl | ⟨h1, h2⟩)
        · exact ⟨Or.inl rfl, hy⟩
        · exact ⟨Or.inr h1, fun hx => h2 (Or.inr hx)⟩
      · rintro ⟨rfl | h1, h2⟩
        · exact Or.inl rfl
        · by_cases hxy : x = y
          · exact Or.inl hxy
          · exact Or.inr ⟨h1, fun hx => hxy (by rcases hx with h | h; exact h; exact absurd h h2)⟩

theorem dedupFirstAux_not_mem_seen {seen l : List κ} {x : κ}
    (h : x ∈ dedupFirstAux seen l) : x ∉ seen :=
  (mem_dedupFirstAux.mp h).2

theorem nodup_dedupFirstAux (seen l : List κ) : (dedupFirstAux seen l).Nodup := by
  induction l generalizing seen with
  | nil => simp [dedupFirstAux]
  | cons y ys ih =>
    by_cases hy : y ∈ seen
    · simpa [dedupFirstAux, if_pos hy] using ih seen
    · rw [dedupFirstAux, if_neg hy]
      exact List.nodup_cons.mpr
        ⟨fun hmem => dedupFirstAux_not_mem_seen hmem (List.mem_cons_self y seen),
         ih (y :: seen)⟩

theorem dedupFirstAux_congr {s₁ : List κ} (s₂ : List κ) (l : List κ)
    (h : ∀ x, x ∈ s₁ ↔ x ∈ s₂) : dedupFirstAux s₁ l = dedupFirstAux s₂ l := by
  induction l generalizing s₁ s₂ with
  | nil => rfl
  | cons y ys ih =>
    by_cases hy : y ∈ s₁
    · rw [dedupFirstAux, dedupFirstAux, if_pos hy, if_pos ((h y).mp hy), ih s₂ h]
    · rw [dedupFirstAux, dedupFirstAux, if_neg hy, if_neg (fun hm => hy ((h y).mpr hm))]
      refine congrArg _ (ih (y :: s₂) fun x => ?_)
      simp only [List.mem_cons, h x]

theorem pairwise_firstIdx_dedupFirstAux (seen l : List κ) :
    (dedupFirstAux seen l).Pairwise (fun a b => firstIdx l a ≤ firstIdx l b) := by
  induction l generalizing seen with
  | nil => simp [dedupFirstAux]
  | cons y ys ih =>
    by_cases hy : y ∈ seen
    · rw [dedupFirstAux, if_pos hy]
      refine (ih seen).imp_of_mem ?_
      intro a b ha hb hab
      have hay : y ≠ a := fun e => dedupFirstAux_not_mem_seen ha (e ▸ hy)
      have hby : y ≠ b := fun e => dedupFirstAux_not_mem_seen hb (e ▸ hy)
      simpa [firstIdx, hay, hby] using hab
    · rw [dedupFirstAux, if_neg hy]
      refine List.Pairwise.cons (fun b _ => by simp [firstIdx]) ?_
      refine (ih (y :: seen)).imp_of_mem ?_
      intro a b ha hb hab
      have hay : y ≠ a := fun e =>
        dedupFirstAux_not_mem_seen ha (e ▸ List.mem_cons_self y seen)
      have hby : y ≠ b := fun e =>
        dedupFirstAux_not_mem_seen hb (e ▸ List.mem_cons_self y seen)
      simpa [firstIdx, hay, hby] using hab

theorem firstIdx_filter_mono (p : κ → Bool) (l : List κ) {a b : κ}
    (ha : a ∈ l.filter p) (hb : b ∈ l.filter p)
    (h : firstIdx (l.filter p) a ≤ firstIdx (l.filter p) b) :
    firstIdx l a ≤ firstIdx l b := by
  induction l with
  | nil => simp at ha
  | cons x xs ih =>
    by_cases hp : p x
    · rw [List.filter_cons_of_pos hp] at ha hb h
      by_cases hax : x = a
      · simp [firstIdx, hax]
      · by_cases hbx : x = b
        · exfalso
          rw [firstIdx, if_neg hax, firstIdx, if_pos hbx] at h
          omega
        · rw [firstIdx, if_neg hax, firstIdx, if_neg hbx] at h
          rw [firstIdx, if_neg hax, firstIdx, if_neg hbx]
          have ha' : a ∈ xs.filter p := by
            rcases List.mem_cons.mp ha with h' | h'
            · exact absurd h'.symm hax
            · exact h'
          have hb' : b ∈ xs.filter p := by
            rcases List.mem_cons.mp hb with h' | h'
            · exact absurd h'.symm hbx
            · exact h'
          have := ih ha' hb' (by omega)
          omega
    · rw [List.filter_cons_of_neg hp] at ha hb h
      have hax : x ≠ a := fun e => hp (e ▸ List.of_mem_filter ha)
      have hbx : x ≠ b := fun e => hp (e ▸ List.of_mem_filter hb)
      rw [firstIdx, if_neg hax, firstIdx, if_neg hbx]
      have := ih ha hb h
      omega

/-! ## Lemmas: the counting fold -/

theorem map_fst_bump (k : κ) (m : List (κ × Nat)) :
    (bump k m).map Prod.fst =
      if k ∈ m.map Prod.fst then m.map Prod.fst else m.map Prod.fst ++ [k] := by
  induction m with
  | nil => simp [bump]
  | cons p rest ih =>
    obtain ⟨k', c⟩ := p
    by_cases hk : k = k'
    · subst hk; simp [bump]
    · simp only [bump, if_neg hk, List.map_cons]
      rw [ih]
      by_cases hmem : k ∈ rest.map Prod.fst
      · simp [hmem, hk]
      · simp [hmem, hk]

theorem sum_snd_bump (k : κ) (m : List (κ × Nat)) :
    ((bump k m).map Prod.snd).sum = (m.map Prod.snd).sum + 1 := by
  induction m with
  | nil => simp [bump]
  | cons p rest ih =>
    obtain ⟨k', c⟩ := p
    by_cases hk : k = k' <;> simp [bump, hk, ih] <;> omega

theorem bump_of_not_mem {k : κ} {m : List (κ × Nat)} (h : k ∉ m.map Prod.fst) :
    bump k m = m ++ [(k, 1)] := by
  induction m with
  | nil => rfl
  | cons p rest ih =>
    obtain ⟨k', c⟩ := p
    simp only [List.map_cons, List.mem_cons] at h
    push_neg at h
    simp [bump, h.1, ih h.2]

theorem if_one_eq_comm (a b : κ) : (if a = b then 1 else 0) = (if b = a then 1 else 0) := by
  by_cases h : a = b
  · simp [h]
  · simp [h, Ne.symm h]

theorem bump_map_of_mem {k : κ} {m : List (κ × Nat)} (f : κ → Nat)
    (hnd : (m.map Prod.fst).Nodup) (hk : k ∈ m.map Prod.fst) :
    (bump k m).map (fun p => (p.1, p.2 + f p.1)) =
      m.map (fun p => (p.1, p.2 + f p.1 + (if p.1 = k then 1 else 0))) := by
  induction m with
  | nil => simp at hk
  | cons p rest ih =>
    obtain ⟨k', c⟩ := p
    simp only [List.map_cons, List.nodup_cons] at hnd
    by_cases hkk : k = k'
    · subst hkk
      simp only [bump, if_pos rfl, if_true, List.map_cons, List.cons.injEq,
        Prod.mk.injEq, eq_self_iff_true, true_and]
      refine ⟨by omega, ?_⟩
      refine List.map_congr_left fun q hq => ?_
      have hq1 : ¬q.1 = k := fun e => hnd.1 (e ▸ List.mem_map_of_mem Prod.fst hq)
      simp [hq1]
    · simp only [List.map_cons, List.mem_cons] at hk
      rcases hk with hk | hk
      · exact absurd hk hkk
      · simp only [bump, if_neg hkk, if_neg (Ne.symm hkk), List.map_cons,
          List.cons.injEq, Prod.mk.injEq, eq_self_iff_true, true_and]
        exact ⟨by omega, ih hnd.2 hk⟩

theorem foldl_bump_eq (l : List κ) : ∀ acc : List (κ × Nat), (acc.map Prod.fst).Nodup →
    l.foldl (fun a k => bump k a) acc =
      acc.map (fun p => (p.1, p.2 + l.count p.1)) ++
        (dedupFirstAux (acc.map Prod.fst) l).map (fun k => (k, l.count k)) := by
  induction l with
  | nil =>
    intro acc _
    simp [dedupFirstAux]
  | cons x t ih =>
    intro acc hnd
    rw [List.foldl_cons]
    by_cases hx : x ∈ acc.map Prod.fst
    · have hnd' : ((bump x acc).map Prod.fst).Nodup := by
        rw [map_fst_bump, if_pos hx]; exact hnd
      rw [ih (bump x acc) hnd', map_fst_bump, if_pos hx,
        bump_map_of_mem (fun k => t.count k) hnd hx]
      rw [dedupFirstAux, if_pos hx]
      refine congrArg₂ _ ?_ ?_
      · refine List.map_congr_left fun q _ => ?_
        simp only [List.count_cons, beq_iff_eq, Prod.mk.injEq, true_and,
          if_one_eq_comm x q.1]
        omega
      · refine List.map_congr_left fun k hk => ?_
        have hkx : ¬x = k := fun e => dedupFirstAux_not_mem_seen hk (e ▸ hx)
        have hkx' : ¬k = x := fun e => hkx e.symm
        simp only [List.count_cons, beq_iff_eq, Prod.mk.injEq, true_and,
          if_neg hkx, if_neg hkx']
        omega
    · have hkeys : (bump x acc).map Prod.fst = acc.map Prod.fst ++ [x] := by
        rw [map_fst_bump, if_neg hx]
      have hnd' : ((bump x acc).map Prod.fst).Nodup := by
        rw [hkeys, List.nodup_append]
        exact ⟨hnd, List.nodup_singleton x, fun a ha hb => by
          simp only [List.mem_singleton] at hb
          exact hx (hb ▸ ha)⟩
      rw [ih (bump x acc) hnd', hkeys, bump_of_not_mem hx,
        dedupFirstAux_congr (x :: acc.map Prod.fst) t (fun z => by simp [or_comm]),
        dedupFirstAux, if_neg hx]
      rw [List.map_append, List.append_assoc]
      refine congrArg₂ _ ?_ ?_
      · refine List.map_congr_left fun q hq => ?_
        have hq1 : ¬x = q.1 := fun e => hx (e ▸ List.mem_map_of_mem Prod.fst hq)
        have hq1' : ¬q.1 = x := fun e => hq1 e.symm
        simp only [List.count_cons, beq_iff_eq, Prod.mk.injEq, true_and,
          if_neg hq1, if_neg hq1']
        omega
      · simp only [List.map_cons, List.map_nil, List.nil_append, List.singleton_append,
          List.cons.injEq, Prod.mk.injEq, eq_self_iff_true, true_and]
        refine ⟨by simp only [List.count_cons, beq_iff_eq, if_pos rfl, if_true]; omega, ?_⟩
        refine List.map_congr_left fun k hk => ?_
        have hkx : ¬x = k := fun e =>
          dedupFirstAux_not_mem_seen hk (e ▸ List.mem_cons_self x (acc.map Prod.fst))
        have hkx' : ¬k = x := fun e => hkx e.symm
        simp only [List.count_cons, beq_iff_eq, Prod.mk.injEq, true_and,
          if_neg hkx, if_neg hkx']
        omega

theorem countsInOrder_eq (l : List κ) :
    countsInOrder l = (dedupFirstAux [] l).map (fun k => (k, l.count k)) := by
  simpa [countsInOrder] using foldl_bump_eq l [] (by simp)

theorem map_fst_countsInOrder (l : List κ) :
    (countsInOrder l).map Prod.fst = dedupFirstAux [] l := by
  rw [countsInOrder_eq, List.map_map]
  exact List.map_id _

theorem nodup_fst_countsInOrder (l : List κ) : ((countsInOrder l).map Prod.fst).Nodup := by
  rw [map_fst_countsInOrder]; exact nodup_dedupFirstAux [] l

theorem mem_countsInOrder {l : List κ} {k : κ} {c : Nat} :
    (k, c) ∈ countsInOrder l ↔ k ∈ l ∧ c = l.count k := by
  rw [countsInOrder_eq]
  simp only [List.mem_map, Prod.mk.injEq]
  constructor
  · rintro ⟨k', hk', rfl, rfl⟩
    exact ⟨(mem_dedupFirstAux.mp hk').1, rfl⟩
  · rintro ⟨hk, rfl⟩
    exact ⟨k, mem_dedupFirstAux.mpr ⟨hk, List.not_mem_nil k⟩, rfl, rfl⟩

theorem sum_snd_countsInOrder (l : List κ) :
    ((countsInOrder l).map Prod.snd).sum = l.length := by
  suffices h : ∀ acc : List (κ × Nat),
      ((l.foldl (fun a k => bump k a) acc).map Prod.snd).sum
        = (acc.map Prod.snd).sum + l.length by
    simpa [countsInOrder] using h []
  induction l with
  | nil => simp
  | cons x t ih =>
    intro acc
    rw [List.foldl_cons, ih (bump x acc), sum_snd_bump]
    simp; omega

/-! ## Lemmas: the stable descending sort -/

theorem perm_insertBy (le : α → α → Bool) (x : α) (l : List α) :
    (insertBy le x l).Perm (x :: l) := by
  induction l with
  | nil => exact List.Perm.refl _
  | cons y ys ih =>
    by_cases h : le x y
    · rw [insertBy, if_pos h]
    · rw [insertBy, if_neg h]
      exact (List.Perm.cons y ih).trans (List.Perm.swap x y ys)

theorem perm_insSortBy (le : α → α → Bool) (l : List α) :
    (insSortBy le l).Perm l := by
  induction l with
  | nil => exact List.Perm.refl _
  | cons x xs ih =>
    exact (perm_insertBy le x (insSortBy le xs)).trans (List.Perm.cons x ih)

theorem perm_sortByCountDesc (l : List (κ × Nat)) : (sortByCountDesc l).Perm l :=
  perm_insSortBy _ l

theorem pairwise_ge_insertBy (x : κ × Nat) (l : List (κ × Nat))
    (hl : l.Pairwise (fun a b => b.2 ≤ a.2)) :
    (insertBy (fun a b : κ × Nat => b.2 ≤ a.2) x l).Pairwise (fun a b => b.2 ≤ a.2) := by
  induction l with
  | nil => simp [insertBy]
  | cons y ys ih =>
    rcases List.pairwise_cons.mp hl with ⟨hy, hys⟩
    by_cases h : y.2 ≤ x.2
    · rw [insertBy, if_pos (by simpa using h)]
      refine List.Pairwise.cons ?_ hl
      intro z hz
      rcases List.mem_cons.mp hz with rfl | hz
      · exact h
      · exact le_trans (hy z hz) h
    · rw [insertBy, if_neg (by simpa using h)]
      refine List.Pairwise.cons ?_ (ih hys)
      intro z hz
      have hz' : z ∈ x :: ys := (perm_insertBy _ x ys).mem_iff.mp hz
      rcases List.mem_cons.mp hz' with rfl | hz'
      · exact Nat.le_of_not_lt (fun hlt => h (Nat.le_of_lt hlt))
      · exact hy z hz'

theorem pairwise_ge_sortByCountDesc (l : List (κ × Nat)) :
    (sortByCountDesc l).Pairwise (fun a b => b.2 ≤ a.2) := by
  induction l with
  | nil => simp [sortByCountDesc, insSortBy]
  | cons x xs ih => exact pairwise_ge_insertBy x _ ih

theorem pairwise_stable_insertBy {Q : κ × Nat → κ × Nat → Prop} (x : κ × Nat)
    (l : List (κ × Nat))
    (hl : l.Pairwise (fun a b => b.2 < a.2 ∨ Q a b)) (hQ : ∀ y ∈ l, Q x y) :
    (insertBy (fun a b : κ × Nat => b.2 ≤ a.2) x l).Pairwise
      (fun a b => b.2 < a.2 ∨ Q a b) := by
  induction l with
  | nil => simp [insertBy]
  | cons y ys ih =>
    rcases List.pairwise_cons.mp hl with ⟨hy, hys⟩
    by_cases h : y.2 ≤ x.2
    · rw [insertBy, if_pos (by simpa using h)]
      refine List.Pairwise.cons (fun z hz => Or.inr (hQ z hz)) hl
    · rw [insertBy, if_neg (by simpa using h)]
      refine List.Pairwise.cons ?_ (ih hys (fun z hz => hQ z (List.mem_cons_of_mem y hz)))
      intro z hz
      have hz' : z ∈ x :: ys := (perm_insertBy _ x ys).mem_iff.mp hz
      rcases List.mem_cons.mp hz' with rfl | hz'
      · exact Or.inl (Nat.lt_of_not_le h)
      · exact hy z hz'

theorem pairwise_stable_sortByCountDesc {Q : κ × Nat → κ × Nat → Prop}
    {l : List (κ × Nat)} (hl : l.Pairwise Q) :
    (sortByCountDesc l).Pairwise (fun a b => b.2 < a.2 ∨ Q a b) := by
  induction l with
  | nil => simp [sortByCountDesc, insSortBy]
  | cons x xs ih =>
    rcases List.pairwise_cons.mp hl with ⟨hx, hxs⟩
    refine pairwise_stable_insertBy x _ (ih hxs) ?_
    intro y hy
    exact hx y ((perm_insSortBy _ xs).mem_iff.mp hy)

/-- The ranking shape of `most_common()`: count strictly descending, or tied
with the tie respecting the input's pairwise order `Q`. -/
theorem pairwise_ranking_sortByCountDesc {Q : κ × Nat → κ × Nat → Prop}
    {l : List (κ × Nat)} (hl : l.Pairwise Q) :
    (sortByCountDesc l).Pairwise
      (fun a b => b.2 < a.2 ∨ (a.2 = b.2 ∧ Q a b)) := by
  have h1 := pairwise_ge_sortByCountDesc l
  have h2 := pairwise_stable_sortByCountDesc hl
  refine (h1.and h2).imp ?_
  rintro a b ⟨hle, hlt | hq⟩
  · exact Or.inl hlt
  · rcases Nat.lt_or_ge b.2 a.2 with h | h
    · exact Or.inl h
    · exact Or.inr ⟨Nat.le_antisymm h hle, hq⟩

/-! ## Lemmas: count lookups -/

theorem getCount_of_mem {m : List (κ × Nat)} (hnd : (m.map Prod.fst).Nodup)
    {k : κ} {c : Nat} (h : (k, c) ∈ m) : getCount m k = c := by
  induction m with
  | nil => simp at h
  | cons p rest ih =>
    obtain ⟨k', c'⟩ := p
    simp only [List.map_cons, List.nodup_cons] at hnd
    by_cases hk : k' = k
    · subst hk
      rcases List.mem_cons.mp h with h | h
      · obtain ⟨-, rfl⟩ := Prod.ext_iff.mp h
        rw [getCount, List.find?_cons_of_pos _ (by simp)]
      · exact absurd (List.mem_map_of_mem Prod.fst h) hnd.1
    · rcases List.mem_cons.mp h with h | h
      · exact absurd (Prod.ext_iff.mp h).1.symm hk
      · rw [getCount, List.find?_cons_of_neg _ (by simpa using hk)]
        exact ih hnd.2 h

theorem getCount_of_not_mem {m : List (κ × Nat)} {k : κ}
    (h : k ∉ m.map Prod.fst) : getCount m k = 0 := by
  induction m with
  | nil => rfl
  | cons p rest ih =>
    obtain ⟨k', c'⟩ := p
    simp only [List.map_cons, List.mem_cons] at h
    push_neg at h
    rw [getCount, List.find?_cons_of_neg _ (by simpa using (Ne.symm h.1))]
    exact ih h.2

theorem getCount_value_counts (cells : List (Option κ)) (k : κ) :
    getCount (value_counts cells) k = (cells.filterMap id).count k := by
  have hperm : (value_counts cells).Perm (countsInOrder (cells.filterMap id)) :=
    perm_sortByCountDesc _
  have hnd : ((value_counts cells).map Prod.fst).Nodup :=
    ((hperm.map Prod.fst).nodup_iff).mpr (nodup_fst_countsInOrder _)
  by_cases hk : k ∈ cells.filterMap id
  · exact getCount_of_mem hnd (hperm.mem_iff.mpr (mem_countsInOrder.mpr ⟨hk, rfl⟩))
  · rw [List.count_eq_zero.mpr hk]
    refine getCount_of_not_mem fun hmem => ?_
    have h1 := (hperm.map Prod.fst).mem_iff.mp hmem
    rw [map_fst_countsInOrder] at h1
    exact hk (mem_dedupFirstAux.mp h1).1

theorem sum_snd_value_counts (cells : List (Option κ)) :
    ((value_counts cells).map Prod.snd).sum = (cells.filterMap id).length := by
  rw [value_counts, ((perm_sortByCountDesc _).map Prod.snd).sum_eq]
  exact sum_snd_countsInOrder _

theorem count_filterMap_id (cells : List (Option κ)) (k : κ) :
    (cells.filterMap id).count k
      = (cells.filter (fun c => decide (c = some k))).length := by
  induction cells with
  | nil => rfl
  | cons c cs ih =>
    cases c with
    | none => simpa [List.count_cons] using ih
    | some v =>
      by_cases hv : v = k
      · subst hv
        simp [List.count_cons, ih]
      · simp [List.count_cons, hv, ih]

/-! ## Lemmas: first-occurrence dedup as a left fold -/

theorem foldl_dedup_eq (l : List κ) : ∀ acc : List κ,
    l.foldl (fun acc x => if x ∈ acc then acc else acc ++ [x]) acc
      = acc ++ dedupFirstAux acc l := by
  induction l with
  | nil => intro acc; simp [dedupFirstAux]
  | cons x t ih =>
    intro acc
    rw [List.foldl_cons]
    by_cases hx : x ∈ acc
    · rw [if_pos hx, ih acc, dedupFirstAux, if_pos hx]
    · rw [if_neg hx, ih (acc ++ [x]), dedupFirstAux, if_neg hx,
        dedupFirstAux_congr (x :: acc) t (fun z => by simp [or_comm])]
      simp [List.append_assoc]

theorem specDedup_eq_drop_duplicates (l : List κ) : specDedup l = dedupFirstAux [] l := by
  simpa [specDedup] using foldl_dedup_eq l []

/-! ## Lemmas: regex matching vs plain substring containment -/

theorem matchHere_lit (p cs : List Char) :
    matchHere (p.map RTok.lit) cs = isPrefixOfB (p.map Char.toLower) (cs.map Char.toLower) := by
  induction p generalizing cs with
  | nil => cases cs <;> rfl
  | cons a as ih =>
    cases cs with
    | nil => rfl
    | cons c cs' => simp [matchHere, tokMatches, isPrefixOfB, ih]

theorem reSearch_lit (p cs : List Char) :
    reSearch (p.map RTok.lit) cs = containsSubL (p.map Char.toLower) (cs.map Char.toLower) := by
  induction cs with
  | nil => simpa [reSearch, containsSubL] using matchHere_lit p []
  | cons c cs' ih => simp [reSearch, containsSubL, matchHere_lit, ih]

theorem compileRegex_of_no_meta {p : String} (h : ∀ c ∈ p.data, isRegexMeta c = false) :
    compileRegex p = some (p.data.map RTok.lit) := by
  have hall : p.data.all (fun c => !isRegexMeta c || c == '.') = true := by
    rw [List.all_eq_true]; intro c hc; simp [h c hc]
  rw [compileRegex, if_pos hall]
  refine congrArg some (List.map_congr_left fun c hc => ?_)
  have hdot : ¬(c == '.') = true := by
    intro hd
    have hc' : c = '.' := by simpa using hd
    subst hc'
    have := h _ hc
    simp [isRegexMeta] at this
  simp [hdot]

theorem cellMatches_lit (p s : String) :
    cellMatches (p.data.map RTok.lit) (some s)
      = containsSubL (lowerStr p).data (lowerStr s).data := by
  simp [cellMatches, reSearch_lit, lowerStr]

/-! ## Lemmas: genre pair enumeration -/

theorem pair_sublist_cons {a b x : κ} {m : List κ} :
    List.Sublist [a, b] (x :: m) ↔ (a = x ∧ b ∈ m) ∨ List.Sublist [a, b] m := by
  constructor
  · intro h
    cases h with
    | cons _ h => exact Or.inr h
    | cons₂ _ h => exact Or.inl ⟨rfl, List.singleton_sublist.mp h⟩
  · rintro (⟨rfl, hb⟩ | h)
    · exact List.Sublist.cons₂ _ (List.singleton_sublist.mpr hb)
    · exact List.Sublist.cons _ h

theorem mem_allPairs {l : List String} {a b : String} :
    (a, b) ∈ allPairs l ↔ List.Sublist [a, b] (l.map pyStrip) := by
  induction l with
  | nil => simp [allPairs]
  | cons x xs ih =>
    rw [allPairs, List.mem_append, List.map_cons, pair_sublist_cons, ih]
    constructor
    · rintro (hmem | h)
      · rcases List.mem_map.mp hmem with ⟨y, hy, heq⟩
        obtain ⟨h1, h2⟩ := Prod.ext_iff.mp heq
        have h1' : pyStrip x = a := h1
        have h2' : pyStrip y = b := h2
        exact Or.inl ⟨h1'.symm, h2' ▸ List.mem_map_of_mem pyStrip hy⟩
      · exact Or.inr h
    · rintro (⟨rfl, hb⟩ | h)
      · rcases List.mem_map.mp hb with ⟨y, hy, rfl⟩
        exact Or.inl (List.mem_map_of_mem _ hy)
      · exact Or.inr h

theorem fst_mem_of_mem_allPairs {l : List String} {a b : String}
    (h : (a, b) ∈ allPairs l) : a ∈ l.map pyStrip :=
  (mem_allPairs.mp h).subset (List.mem_cons_self a [b])

theorem allPairs_no_self {l : List String} (h : (l.map pyStrip).Nodup) (a : String) :
    (a, a) ∉ allPairs l := by
  intro hmem
  have hcount := (mem_allPairs.mp hmem).count_le a
  simp [List.count_cons] at hcount
  have := List.nodup_iff_count_le_one.mp h a
  omega

theorem allPairs_nodup {l : List String} (h : (l.map pyStrip).Nodup) :
    (allPairs l).Nodup := by
  induction l with
  | nil => simp [allPairs]
  | cons x xs ih =>
    rw [List.map_cons, List.nodup_cons] at h
    rw [allPairs]
    refine List.nodup_append.mpr ⟨?_, ih h.2, ?_⟩
    · have hrw : xs.map (fun y => (pyStrip x, pyStrip y))
          = (xs.map pyStrip).map (fun t => (pyStrip x, t)) := by
        rw [List.map_map]; rfl
      rw [hrw]
      exact h.2.map (fun t₁ t₂ he => (Prod.ext_iff.mp he).2)
    · intro z hz1 hz2
      rcases List.mem_map.mp hz1 with ⟨y, _, rfl⟩
      exact h.1 (fst_mem_of_mem_allPairs hz2)

/-! ## Lemmas: sampling by row positions -/

theorem length_filterMap_get? {c : List α} {sel : List Nat}
    (h : ∀ i ∈ sel, i < c.length) :
    (sel.filterMap (fun i => c.get? i)).length = sel.length := by
  induction sel with
  | nil => rfl
  | cons i is ih =>
    have hi : i < c.length := h i (List.mem_cons_self i is)
    rw [List.filterMap_cons, List.get?_eq_get hi]
    simpa using ih (fun j hj => h j (List.mem_cons_of_mem i hj))

theorem mem_of_mem_filterMap_get? {c : List α} {sel : List Nat} {x : α}
    (h : x ∈ sel.filterMap (fun i => c.get? i)) : x ∈ c := by
  rcases List.mem_filterMap.mp h with ⟨i, _, hx⟩
  exact List.get?_mem hx

theorem perm_range_of_nodup {sel : List Nat} {n : Nat} (hnd : sel.Nodup)
    (hlt : ∀ i ∈ sel, i < n) (hlen : sel.length = n) : sel.Perm (List.range n) := by
  refine List.perm_of_nodup_nodup_toFinset_eq hnd (List.nodup_range n) ?_
  refine (Finset.eq_of_subset_of_card_le ?_ ?_).symm.symm
  · intro i hi
    rw [List.mem_toFinset] at hi ⊢
    exact List.mem_range.mpr (hlt i hi)
  · rw [List.toFinset_card_of_nodup hnd, List.toFinset_card_of_nodup (List.nodup_range n),
      List.length_range, hlen]

theorem range_filterMap_get? (c : List α) :
    (List.range c.length).filterMap (fun i => c.get? i) = c := by
  induction c with
  | nil => rfl
  | cons x xs ih =>
    rw [List.length_cons, List.range_succ_eq_map, List.filterMap_cons, List.filterMap_map]
    have hfun : ((fun i => (x :: xs).get? i) ∘ Nat.succ) = (fun i => xs.get? i) := rfl
    simp only [List.get?_cons_zero, List.filterMap_cons, hfun, ih]

/-! ## Lemmas: cross-tabulation row sums -/

theorem sum_map_if_add {S : List κ} {f : κ → Nat} {b0 : κ}
    (hnd : S.Nodup) (hb : b0 ∈ S) :
    (S.map (fun b => f b + (if b = b0 then 1 else 0))).sum = (S.map f).sum + 1 := by
  induction S with
  | nil => simp at hb
  | cons s ss ih =>
    rw [List.nodup_cons] at hnd
    rcases List.mem_cons.mp hb with h | hb'
    · simp only [List.map_cons, List.sum_cons, if_pos h.symm]
      have hcongr : ∀ b ∈ ss, f b + (if b = b0 then 1 else 0) = f b := by
        intro b hbs
        have hbne : ¬b = b0 := fun e => hnd.1 ((e.trans h) ▸ hbs)
        simp [hbne]
      rw [List.map_congr_left hcongr]
      omega
    · simp only [List.map_cons, List.sum_cons]
      have hsne : ¬s = b0 := fun e => hnd.1 (e.symm ▸ hb')
      rw [if_neg hsne, ih hnd.2 hb']
      omega

theorem sum_crossCount_eq {α β : Type _} [DecidableEq α] [DecidableEq β]
    (rs : List Record) (kA : Record → Option α) (kB : Record → Option β) (a : α) :
    ∀ S : List β, S.Nodup → (∀ r ∈ rs, ∀ b, kB r = some b → b ∈ S) →
      (S.map (fun b => crossCount rs kA kB a b)).sum
        = (rs.filter (fun r => decide (kA r = some a) && (kB r).isSome)).length := by
  induction rs with
  | nil =>
    intro S _ _
    have : ∀ b ∈ S, crossCount [] kA kB a b = 0 := fun b _ => rfl
    rw [List.map_congr_left this]
    simp
  | cons r rs ih =>
    intro S hnd hcov
    have hcov' : ∀ r' ∈ rs, ∀ b, kB r' = some b → b ∈ S :=
      fun r' h => hcov r' (List.mem_cons_of_mem r h)
    by_cases ha : kA r = some a
    · cases hb : kB r with
      | some b0 =>
        have hb0S : b0 ∈ S := hcov r (List.mem_cons_self r rs) b0 hb
        have hterm : ∀ b ∈ S, crossCount (r :: rs) kA kB a b
            = crossCount rs kA kB a b + (if b = b0 then 1 else 0) := by
          intro b _
          rw [crossCount, crossCount, List.filter_cons]
          by_cases hbb : b = b0
          · subst hbb
            rw [if_pos (by simp [ha, hb]), if_pos rfl, List.length_cons]
          · rw [if_neg (by simp [hb, Ne.symm hbb]), if_neg hbb]
            omega
        rw [List.map_congr_left hterm, sum_map_if_add hnd hb0S, ih S hnd hcov',
          List.filter_cons, if_pos (by simp [ha, hb]), List.length_cons]
      | none =>
        have hterm : ∀ b ∈ S, crossCount (r :: rs) kA kB a b = crossCount rs kA kB a b := by
          intro b _
          rw [crossCount, crossCount, List.filter_cons, if_neg (by simp [hb])]
        rw [List.map_congr_left hterm, ih S hnd hcov', List.filter_cons,
          if_neg (by simp [hb])]
    · have hterm : ∀ b ∈ S, crossCount (r :: rs) kA kB a b = crossCount rs kA kB a b := by
        intro b _
        rw [crossCount, crossCount, List.filter_cons, if_neg (by simp [ha])]
      rw [List.map_congr_left hterm, ih S hnd hcov', List.filter_cons,
        if_neg (by simp [ha])]

theorem crossRowSum_eq {α β : Type _} [DecidableEq α] [DecidableEq β]
    (rs : List Record) (kA : Record → Option α) (kB : Record → Option β) (a : α) :
    crossRowSum rs kA kB a
      = (rs.filter (fun r => decide (kA r = some a) && (kB r).isSome)).length := by
  refine sum_crossCount_eq rs kA kB a (innerVals rs kB) (nodup_dedupFirstAux _ _) ?_
  intro r hr b hb
  exact mem_dedupFirstAux.mpr ⟨List.mem_filterMap.mpr ⟨r, hr, hb⟩, List.not_mem_nil b⟩

/-! ## The claims -/

/-- **C1** (amended).  `value_counts` — the single-key counting used by
`country_analysis` and `rating_analysis` — drops records whose key cell is
null (the pandas default `dropna=True`) instead of bucketing them under a
reserved "unknown" key: every returned key is a value actually stored in
some record, and the counts sum to the number of records with a *non-null*
key, not to the total record count. -/
theorem C1_value_counts_drops_null {κ : Type _} [DecidableEq κ] (cells : List (Option κ)) :
    ((value_counts cells).map Prod.snd).sum = (cells.filterMap id).length ∧
    ∀ k c, (k, c) ∈ value_counts cells → some k ∈ cells := by
  refine ⟨sum_snd_value_counts cells, ?_⟩
  intro k c hmem
  have h1 : (k, c) ∈ countsInOrder (cells.filterMap id) :=
    (perm_sortByCountDesc _).mem_iff.mp hmem
  have h2 : k ∈ cells.filterMap id := (mem_countsInOrder.mp h1).1
  rcases List.mem_filterMap.mp h2 with ⟨o, ho, heq⟩
  cases o with
  | none => cases heq
  | some v => cases heq; exact ho

/-- **C1** counterexample: on a two-record set with one null country,
`country_analysis` returns a single bucket `("United States", 1)`; the
counts sum to 1, not to the record count 2, and no "unknown" bucket
appears. -/
theorem C1_counterexample :
    country_analysis [{ recBase with country := none }, recBase] = [("United States", 1)] ∧
    (([{ recBase with country := none }, recBase] : List Record).length = 2) ∧
    ((country_analysis [{ recBase with country := none }, recBase]).map Prod.snd).sum
      ≠ ([{ recBase with country := none }, recBase] : List Record).length := by
  refine ⟨by decide, rfl, by decide⟩

/-- **C2** (amended).  Per-record derivation degrades a bad date gracefully —
all other fields are produced and only the four date-derived columns become
null — *provided* the duration column does not make `int()` raise: whenever
both duration lambdas return without error, the record is produced with
every non-derived field preserved. -/
theorem C2_field_degradation (raw : RawRecord)
    (hm : duration_min_of raw.duration ≠ .error ())
    (hs : seasons_of raw.duration ≠ .error ()) :
    ∃ rec : Record, preprocess_record raw = .ok rec ∧
      rec.title = raw.title ∧ rec.cast = raw.cast ∧ rec.director = raw.director ∧
      rec.description = raw.description ∧ rec.listed_in = raw.listed_in ∧
      rec.rating = raw.rating ∧ rec.country = raw.country ∧
      rec.release_year = raw.release_year ∧
      rec.content_type = (if raw.rowType = some "Movie" then "Movie" else "TV Show") ∧
      (parseDateOpt raw.date_added = none →
        rec.date_added = none ∧ rec.year_added = none ∧
        rec.month_added = none ∧ rec.day_added = none) := by
  cases hdm : duration_min_of raw.duration with
  | error e => cases e; exact absurd hdm hm
  | ok dm =>
    cases hss : seasons_of raw.duration with
    | error e => cases e; exact absurd hss hs
    | ok ss =>
      refine ⟨{ title := raw.title, cast := raw.cast, director := raw.director,
                description := raw.description, listed_in := raw.listed_in,
                rating := raw.rating, country := raw.country,
                release_year := raw.release_year,
                date_added := parseDateOpt raw.date_added,
                year_added := (parseDateOpt raw.date_added).map (fun d => (d.year : Int)),
                month_added := (parseDateOpt raw.date_added).map (fun d => monthName d.month),
                day_added := (parseDateOpt raw.date_added).map (fun d => weekdayName d),
                duration_min := dm, seasons := ss,
                content_type := if raw.rowType = some "Movie" then "Movie" else "TV Show" },
        ?_, rfl, rfl, rfl, rfl, rfl, rfl, rfl, rfl, rfl, ?_⟩
      · simp only [preprocess_record, hdm, hss]
        rfl
      · intro hdt
        simp [hdt]

/-- **C2** witness: a record with the unparsable date "February 30, 2021"
and the well-formed duration "90 min" is produced with its date-derived
fields null. -/
theorem C2_witness :
    ∃ rec : Record, preprocess_record rawBadDate = .ok rec ∧
      rec.title = rawBadDate.title ∧ rec.cast = rawBadDate.cast ∧
      rec.director = rawBadDate.director ∧
      rec.description = rawBadDate.description ∧
      rec.listed_in = rawBadDate.listed_in ∧
      rec.rating = rawBadDate.rating ∧ rec.country = rawBadDate.country ∧
      rec.release_year = rawBadDate.release_year ∧
      rec.content_type = (if rawBadDate.rowType = some "Movie" then "Movie" else "TV Show") ∧
      (parseDateOpt rawBadDate.date_added = none →
        rec.date_added = none ∧ rec.year_added = none ∧
        rec.month_added = none ∧ rec.day_added = none) :=
  C2_field_degradation rawBadDate
    (fun h => Except.noConfusion h) (fun h => Except.noConfusion h)

/-- **C2** counterexample: a duration cell `"abc min"` contains `"min"` but
its leading token is not an integer, so `int('abc')` raises and the whole
record derivation fails instead of degrading the field. -/
theorem C2_counterexample : preprocess_record rawBadDuration = .error () := rfl

/-- **C3** (amended).  The two duration lambdas test `'min' in x` and
`'Season' in x` independently: `duration_min` is the parsed leading token
exactly when the string contains `"min"` (regardless of `"Season"`), and
symmetrically for `seasons`; a string containing neither yields two nulls —
but a string containing *both* substrings sets both fields, so the two
fields are not mutually exclusive. -/
theorem C3_duration_fields (s : String) (n m : Int) :
    (duration_min_of (some s) = .ok (some n) ↔
      pyIn "min" s = true ∧ pyInt? (leadTok s) = some n) ∧
    (seasons_of (some s) = .ok (some m) ↔
      pyIn "Season" s = true ∧ pyInt? (leadTok s) = some m) ∧
    (duration_min_of (some s) = .ok none ↔ pyIn "min" s = false) ∧
    (seasons_of (some s) = .ok none ↔ pyIn "Season" s = false) := by
  have key : ∀ (b : Bool) (k : Int),
      ((if b then (match pyInt? (leadTok s) with
          | some v => (Except.ok (some v) : Except Unit (Option Int))
          | none => Except.error ()) else Except.ok none) = Except.ok (some k))
        ↔ (b = true ∧ pyInt? (leadTok s) = some k) := by
    intro b k
    cases b with
    | false => simp
    | true =>
      cases hp : pyInt? (leadTok s) with
      | none => simp
      | some v => simp
  have key0 : ∀ b : Bool,
      ((if b then (match pyInt? (leadTok s) with
          | some v => (Except.ok (some v) : Except Unit (Option Int))
          | none => Except.error ()) else Except.ok none) = Except.ok none)
        ↔ b = false := by
    intro b
    cases b with
    | false => simp
    | true =>
      cases hp : pyInt? (leadTok s) with
      | none => simp
      | some v => simp
  exact ⟨key (pyIn "min" s) n, key (pyIn "Season" s) m,
    key0 (pyIn "min" s), key0 (pyIn "Season" s)⟩

/-- **C3** counterexample: the duration string "1 Season min" contains both
`"min"` and `"Season"`, so both derived fields are set — `durationMinutes`
and `seasons` are simultaneously non-null, and, in particular, containing
`"min"` does not force `seasons` to be null. -/
theorem C3_counterexample :
    duration_min_of (some "1 Season min") = .ok (some 1) ∧
    seasons_of (some "1 Season min") = .ok (some 1) := ⟨rfl, rfl⟩

/-- **C4**.  For a non-empty query whose pattern compiles, `search_content`
returns exactly the concatenation of the title-, cast-, director- and
description-match lists (each a filter of the record set, hence in record
order), deduplicated keeping the first occurrence (`specDedup` spells out
the spec's "concatenate then deduplicate keeping first"); consequently the
result has no duplicates and every returned record appears exactly once,
positioned by its earliest-priority matching field. -/
theorem C4_search_priority_dedup (rs : List Record) (q : String) (ts : List RTok)
    (res : List Record) (hq : q ≠ "") (hts : compileRegex q = some ts)
    (hres : search_content rs q = some res) :
    res = specDedup (rs.filter (fun r => cellMatches ts r.title)
        ++ rs.filter (fun r => cellMatches ts r.cast)
        ++ rs.filter (fun r => cellMatches ts r.director)
        ++ rs.filter (fun r => cellMatches ts r.description)) ∧
    res.Nodup ∧ (∀ r ∈ res, res.count r = 1) := by
  rw [search_content, if_neg hq, hts, Option.map_some'] at hres
  obtain rfl := Option.some.inj hres
  refine ⟨(specDedup_eq_drop_duplicates _).symm, nodup_dedupFirstAux _ _, ?_⟩
  intro r hr
  exact List.count_eq_one_of_mem (nodup_dedupFirstAux _ _) hr

/-- **C4** witness at a one-record set and the query "smith". -/
theorem C4_witness :
    ([recBase] : List Record)
        = specDedup ([recBase].filter (fun r => cellMatches (tsOf "smith") r.title)
          ++ [recBase].filter (fun r => cellMatches (tsOf "smith") r.cast)
          ++ [recBase].filter (fun r => cellMatches (tsOf "smith") r.director)
          ++ [recBase].filter (fun r => cellMatches (tsOf "smith") r.description)) ∧
    ([recBase] : List Record).Nodup ∧
    (∀ r ∈ ([recBase] : List Record), ([recBase] : List Record).count r = 1) :=
  C4_search_priority_dedup [recBase] "smith" (tsOf "smith") [recBase]
    (by decide) rfl (by decide)

/-- **C5** (amended).  The genre pair enumeration of `visualize_genres`
emits *ordered positional* pairs: for a genre list whose stripped entries
are pairwise distinct, the emitted pair list has no duplicates and no
self-pair, and `(a, b)` is emitted exactly when `a` occurs strictly before
`b` in the stripped list — so a record with genres `[A, B, C]` contributes
exactly `(A,B), (A,C), (B,C)`, but two records listing the same two genres
in opposite orders feed two *different* counters, and a repeated value
produces self-pairs (see the counterexample). -/
theorem C5_genre_pairs_ordered (l : List String) (h : (l.map pyStrip).Nodup) :
    (allPairs l).Nodup ∧ (∀ a, (a, a) ∉ allPairs l) ∧
    (∀ a b, (a, b) ∈ allPairs l ↔ List.Sublist [a, b] (l.map pyStrip)) :=
  ⟨allPairs_nodup h, fun a => allPairs_no_self h a, fun _ _ => mem_allPairs⟩

/-- **C5** witness at the genre list of a record listing
"Action, Thrillers" (split and enumerated as in `pairsOfSplit`). -/
theorem C5_witness :
    (allPairs (pySplit "Action, Thrillers, Dramas" ", ")).Nodup ∧
    (∀ a, (a, a) ∉ allPairs (pySplit "Action, Thrillers, Dramas" ", ")) ∧
    (∀ a b, (a, b) ∈ allPairs (pySplit "Action, Thrillers, Dramas" ", ") ↔
      List.Sublist [a, b] ((pySplit "Action, Thrillers, Dramas" ", ").map pyStrip)) :=
  C5_genre_pairs_ordered (pySplit "Action, Thrillers, Dramas" ", ") (by decide)

/-- **C5** counterexample: a record with `listed_in = "A, B, A"` contributes
the self-pair `(A, A)`, and two records listing `"A, B"` and `"B, A"`
increment two different (ordered) pair counters instead of one unordered
counter with count 2. -/
theorem C5_counterexample :
    genre_pairs [{ recBase with listed_in := some "A, B, A" }]
        = [("A", "B"), ("A", "A"), ("B", "A")] ∧
    pair_counts [{ recBase with listed_in := some "A, B" },
        { recBase with listed_in := some "B, A" }]
      = [(("A", "B"), 1), (("B", "A"), 1)] := ⟨by decide, by decide⟩

/-- **C6** (amended).  The field matching of `search_content` and the genre
criterion of `content_recommender` go through
`str.contains(query, case=False, na=False)`, which interprets the query as
a *regular expression* (pandas defaults to `regex=True`), not as a literal
substring.  For queries free of regex metacharacters the two coincide: the
match result is exactly case-insensitive substring containment (a null cell
never matches).  Queries containing metacharacters get regex semantics
instead (see the counterexample). -/
theorem C6_match_is_regex (p : String) (cell : Option String)
    (h : ∀ c ∈ p.data, isRegexMeta c = false) :
    pyStrContains p cell = some (match cell with
      | none => false
      | some s => pyIn (lowerStr p) (lowerStr s)) := by
  rw [pyStrContains, compileRegex_of_no_meta h, Option.map_some']
  cases cell with
  | none => rfl
  | some s => exact congrArg some (cellMatches_lit p s)

/-- **C6** witness at the query "smith" and the cell "Agent Smith". -/
theorem C6_witness :
    pyStrContains "smith" (some "Agent Smith") = some (match some "Agent Smith" with
      | none => false
      | some s => pyIn (lowerStr "smith") (lowerStr s)) :=
  C6_match_is_regex "smith" (some "Agent Smith") (by decide)

/-- **C6** counterexample: the query "a.c" matches the cell "abc" (the `.`
is a regex wildcard) although "a.c" does not occur verbatim in "abc" even
ignoring case — matching is not plain substring containment. -/
theorem C6_counterexample :
    pyStrContains "a.c" (some "abc") = some true ∧
    pyIn (lowerStr "a.c") (lowerStr "abc") = false := ⟨rfl, rfl⟩

/-- **C7**.  `keyword_analysis` — lowercase and join the descriptions,
tokenize on whitespace (`descWords`), drop stop words and short tokens
(`keptWords`; the source fixes the threshold at `len(word) > 3`, i.e.
minimum length 4) — returns exactly the kept terms with their counts, each
term once, ranked by count descending with ties broken by the term's first
occurrence in the concatenated token stream. -/
theorem C7_keyword_ranking (rs : List Record) (stop : List String) (minLen : Nat) :
    (∀ k c, (k, c) ∈ keyword_analysis rs stop minLen ↔
        k ∈ keptWords rs stop minLen ∧ c = (keptWords rs stop minLen).count k) ∧
    ((keyword_analysis rs stop minLen).map Prod.fst).Nodup ∧
    (keyword_analysis rs stop minLen).Pairwise (fun a b =>
      b.2 < a.2 ∨ (a.2 = b.2 ∧ firstIdx (descWords rs) a.1 ≤ firstIdx (descWords rs) b.1)) := by
  have hperm : (keyword_analysis rs stop minLen).Perm
      (countsInOrder (keptWords rs stop minLen)) := perm_sortByCountDesc _
  refine ⟨?_, ?_, ?_⟩
  · intro k c
    rw [hperm.mem_iff, mem_countsInOrder]
  · exact ((hperm.map Prod.fst).nodup_iff).mpr (nodup_fst_countsInOrder _)
  · have hkeys : (countsInOrder (keptWords rs stop minLen)).Pairwise
        (fun a b => firstIdx (keptWords rs stop minLen) a.1
          ≤ firstIdx (keptWords rs stop minLen) b.1) := by
      rw [countsInOrder_eq]
      exact List.pairwise_map.mpr
        (by simpa using pairwise_firstIdx_dedupFirstAux [] (keptWords rs stop minLen))
    have hbase : (countsInOrder (keptWords rs stop minLen)).Pairwise
        (fun a b => firstIdx (descWords rs) a.1 ≤ firstIdx (descWords rs) b.1) := by
      refine hkeys.imp_of_mem ?_
      intro a b ha hb hle
      have ha1 : a.1 ∈ keptWords rs stop minLen := by
        obtain ⟨k, c⟩ := a
        exact (mem_countsInOrder.mp ha).1
      have hb1 : b.1 ∈ keptWords rs stop minLen := by
        obtain ⟨k, c⟩ := b
        exact (mem_countsInOrder.mp hb).1
      exact firstIdx_filter_mono _ (descWords rs) ha1 hb1 hle
    exact pairwise_ranking_sortByCountDesc hbase

/-- **C8**.  For any preference combination whose candidate set is defined
in the model (`recCandidates … = some c`) and any valid random draw of
`min(5, |c|)` distinct row positions, `content_recommender` answers: an
explicit no-match outcome when the candidate set is empty (never an
error), and otherwise exactly `min(5, |c|)` records all drawn from the
candidate set — all of them (a permutation) when there are at most 5. -/
theorem C8_recommender (rs : List Record) (ct genre rating : Option String)
    (sel : List Nat) (c : List Record)
    (hc : recCandidates rs ct genre rating = some c)
    (hnd : sel.Nodup) (hlt : ∀ i ∈ sel, i < c.length)
    (hlen : sel.length = min 5 c.length) :
    (c = [] → content_recommender rs ct genre rating sel = some .noMatch) ∧
    (c ≠ [] → ∃ picked, content_recommender rs ct genre rating sel
        = some (.recs picked) ∧
      picked.length = min 5 c.length ∧ (∀ x ∈ picked, x ∈ c) ∧
      (c.length ≤ 5 → picked.Perm c)) := by
  constructor
  · rintro rfl
    rw [content_recommender, hc, Option.map_some']
    rfl
  · intro hne
    refine ⟨sel.filterMap (fun i => c.get? i), ?_, ?_, ?_, ?_⟩
    · rw [content_recommender, hc, Option.map_some',
        if_neg (by simpa [List.length_eq_zero] using hne)]
    · rw [length_filterMap_get? hlt, hlen]
    · intro x hx
      exact mem_of_mem_filterMap_get? hx
    · intro h5
      have hlen' : sel.length = c.length := by omega
      have hperm := perm_range_of_nodup hnd hlt hlen'
      refine (hperm.filterMap (fun i => c.get? i)).trans ?_
      rw [range_filterMap_get?]

/-- **C8** witness: three distinct PG movies, preferences
(`Movie`, no genre, rating "pg"), and the draw `[2, 0, 1]`: all three are
returned. -/
theorem C8_witness :
    (([recBase, { recBase with title := some "B" },
        { recBase with title := some "C" }] : List Record) = [] →
      content_recommender [recBase, { recBase with title := some "B" },
        { recBase with title := some "C" }]
        (some "Movie") none (some "pg") [2, 0, 1] = some .noMatch) ∧
    (([recBase, { recBase with title := some "B" },
        { recBase with title := some "C" }] : List Record) ≠ [] →
      ∃ picked, content_recommender [recBase, { recBase with title := some "B" },
          { recBase with title := some "C" }]
          (some "Movie") none (some "pg") [2, 0, 1] = some (.recs picked) ∧
        picked.length = min 5 ([recBase, { recBase with title := some "B" },
          { recBase with title := some "C" }] : List Record).length ∧
        (∀ x ∈ picked, x ∈ ([recBase, { recBase with title := some "B" },
          { recBase with title := some "C" }] : List Record)) ∧
        (([recBase, { recBase with title := some "B" },
            { recBase with title := some "C" }] : List Record).length ≤ 5 →
          picked.Perm [recBase, { recBase with title := some "B" },
            { recBase with title := some "C" }])) :=
  C8_recommender [recBase, { recBase with title := some "B" },
      { recBase with title := some "C" }]
    (some "Movie") none (some "pg") [2, 0, 1] _ (by decide) (by decide)
    (by decide) (by decide)

/-- **C9** (amended).  Summing one row of a `groupby([outer, inner]).size()`
cross-tabulation over all observed inner keys counts the records with that
outer key *and a non-null inner key* (pandas `groupby` drops rows with a
null grouping key); it reproduces the `value_counts` single-key count of
the outer key exactly when no record with that outer key has a null inner
key. -/
theorem C9_crosstab_marginal {α β : Type _} [DecidableEq α] [DecidableEq β]
    (rs : List Record) (kA : Record → Option α) (kB : Record → Option β) (a : α) :
    crossRowSum rs kA kB a
        = (rs.filter (fun r => decide (kA r = some a) && (kB r).isSome)).length ∧
    ((∀ r ∈ rs, kA r = some a → (kB r).isSome) →
      crossRowSum rs kA kB a = getCount (value_counts (rs.map kA)) a) := by
  refine ⟨crossRowSum_eq rs kA kB a, ?_⟩
  intro hall
  rw [crossRowSum_eq, getCount_value_counts, count_filterMap_id, List.filter_map,
    List.length_map]
  refine congrArg List.length (List.filter_congr ?_)
  intro r hr
  by_cases hka : kA r = some a
  · simp [Function.comp, hka, hall r hr hka]
  · simp [Function.comp, hka]

/-- **C9** witness: one record with year 2019 and a non-null rating — the
rating-by-year row sum for 2019 equals the `value_counts` count of 2019. -/
theorem C9_witness :
    crossRowSum [recBase] (fun r => some r.release_year) (fun r => r.rating) 2019
        = (([recBase] : List Record).filter
            (fun r => decide (some r.release_year = some (2019 : Int))
              && (r.rating).isSome)).length ∧
    ((∀ r ∈ ([recBase] : List Record), some r.release_year = some (2019 : Int) →
        (r.rating).isSome) →
      crossRowSum [recBase] (fun r => some r.release_year) (fun r => r.rating) 2019
        = getCount (value_counts (([recBase] : List Record).map
            (fun r => some r.release_year))) 2019) :=
  C9_crosstab_marginal [recBase] (fun r => some r.release_year) (fun r => r.rating) 2019

/-- **C9** counterexample: one record with release year 2019 and a *null*
rating.  The rating-by-year cross-tabulation drops the record entirely, so
its 2019 row sums to 0, while `value_counts` on release year counts it —
the marginal does not reproduce the single-key count. -/
theorem C9_counterexample :
    crossRowSum [{ recBase with rating := none }]
        (fun r => some r.release_year) (fun r => r.rating) 2019 = 0 ∧
    getCount (value_counts (([{ recBase with rating := none }] : List Record).map
        (fun r => some r.release_year))) 2019 = 1 := ⟨rfl, rfl⟩

/-- **C10**.  `drop_duplicates()` compares the full tuple of stored column
values, not record identity: when the record set contains at least two
catalogue entries with identical stored fields (the same `Record` value
twice) and the query matches one of its fields, the search result contains
that value exactly once. -/
theorem C10_search_value_dedup (rs : List Record) (q : String) (ts : List RTok)
    (r : Record) (res : List Record)
    (hq : q ≠ "") (hts : compileRegex q = some ts)
    (hres : search_content rs q = some res)
    (hdup : 2 ≤ rs.count r)
    (hmatch : cellMatches ts r.title = true ∨ cellMatches ts r.cast = true ∨
      cellMatches ts r.director = true ∨ cellMatches ts r.description = true) :
    res.count r = 1 := by
  rw [search_content, if_neg hq, hts, Option.map_some'] at hres
  obtain rfl := Option.some.inj hres
  have hrmem : r ∈ rs := List.count_pos_iff_mem.mp (by omega)
  have hconcat : r ∈ rs.filter (fun x => cellMatches ts x.title)
      ++ rs.filter (fun x => cellMatches ts x.cast)
      ++ rs.filter (fun x => cellMatches ts x.director)
      ++ rs.filter (fun x => cellMatches ts x.description) := by
    rcases hmatch with h | h | h | h
    · exact List.mem_append_left _ (List.mem_append_left _
        (List.mem_append_left _ (List.mem_filter.mpr ⟨hrmem, h⟩)))
    · exact List.mem_append_left _ (List.mem_append_left _
        (List.mem_append_right _ (List.mem_filter.mpr ⟨hrmem, h⟩)))
    · exact List.mem_append_left _ (List.mem_append_right _
        (List.mem_filter.mpr ⟨hrmem, h⟩))
    · exact List.mem_append_right _ (List.mem_filter.mpr ⟨hrmem, h⟩)
  have hres' : r ∈ drop_duplicates (rs.filter (fun x => cellMatches ts x.title)
      ++ rs.filter (fun x => cellMatches ts x.cast)
      ++ rs.filter (fun x => cellMatches ts x.director)
      ++ rs.filter (fun x => cellMatches ts x.description)) :=
    mem_dedupFirstAux.mpr ⟨hconcat, List.not_mem_nil r⟩
  exact List.count_eq_one_of_mem (nodup_dedupFirstAux _ _) hres'

/-- **C10** witness: the same record value listed twice, with the query
"smith" matching its title, is returned exactly once. -/
theorem C10_witness : ([recBase] : List Record).count recBase = 1 :=
  C10_search_value_dedup [recBase, recBase] "smith" (tsOf "smith") recBase [recBase]
    (by decide) rfl (by decide) (by decide) (Or.inl (by decide))

end Netflix
